import Mathlib

set_option maxRecDepth 10000
set_option maxHeartbeats 1000000

/-!
Verification of the streaming archive-assembly pipeline of
`app/api/freshcaller/recordings/zip/route.ts`.

The source is shallowly embedded: the retry wrapper and the concurrency
limiter become explicit state/trace semantics, the per-item pipeline and
the `POST` orchestrator become pure functions over oracles that model the
network collaborators (`fetch` of metadata and of the audio payload), and
the fflate `Zip` writer is observed through the sequence of
`add`/`push`/`end` calls the route issues against it.
-/

namespace QmsZip

instance {E A : Type} [DecidableEq E] [DecidableEq A] : DecidableEq (Except E A) :=
  fun x y =>
    match x, y with
    | .ok a, .ok b =>
      if h : a = b then .isTrue (by rw [h]) else .isFalse (by simp [h])
    | .error e, .error f =>
      if h : e = f then .isTrue (by rw [h]) else .isFalse (by simp [h])
    | .ok _, .error _ => .isFalse (by simp)
    | .error _, .ok _ => .isFalse (by simp)

/-! ### Retry wrapper (`retry`, route.ts lines 69-81)

`retry(fn, tries, baseDelayMs)` loops `i = 0 .. tries-1`: each iteration
awaits `fn()`; on success the value is returned at once; on failure the
error is remembered and the loop sleeps `baseDelayMs * 2^i +
Math.random() * 250` milliseconds — also on the last iteration — and after
the loop the remembered error is re-thrown.  The embedding feeds the
attempts from an oracle `fn : Nat → Except E A` (attempt index ↦ outcome)
and records the result, how many attempts ran, and the exponents `i` of
the backoff sleeps that were executed, in order. -/

/-- Outcome of one `retry` invocation: the settled result (`Except.error
none` models re-throwing the undefined `lastErr` when `tries = 0`), the
number of times the wrapped operation was invoked, and the list of
exponents `i` for which a backoff sleep `base * 2^i + jitter` ran. -/
structure RetryOutcome (E A : Type) where
  result : Except (Option E) A
  attemptsUsed : Nat
  delayExponents : List Nat
deriving Repr, DecidableEq

/-- Loop body of `retry`: `lastErr` is the last caught error, `i` the
current attempt index, the last argument the remaining iterations. -/
def retryAux (fn : Nat → Except E A) (lastErr : Option E) (i : Nat) :
    Nat → RetryOutcome E A
  | 0 => ⟨.error lastErr, i, []⟩
  | r + 1 =>
    match fn i with
    | .ok a => ⟨.ok a, i + 1, []⟩
    | .error e =>
      let o := retryAux fn (some e) (i + 1) r
      ⟨o.result, o.attemptsUsed, i :: o.delayExponents⟩

/-- Embedding of `retry(fn, tries, baseDelayMs)` (the delays' durations
are recovered from `delayExponents` via `backoffOf`). -/
def retryRun (fn : Nat → Except E A) (tries : Nat) : RetryOutcome E A :=
  retryAux fn none 0 tries

/-- Duration of the backoff sleep executed after failed attempt `i`:
`baseDelayMs * Math.pow(2, i) + Math.random() * 250` (route.ts line 76),
with `jitter i` standing for the sampled `Math.random() * 250`. -/
def backoffOf (base : ℚ) (jitter : Nat → ℚ) (i : Nat) : ℚ :=
  base * 2 ^ i + jitter i

/-! ### Concurrency limiter (`createLimiter`, route.ts lines 41-67)

`createLimiter(max)` keeps a counter `active` and a FIFO `queue` of
pending `run` thunks.  Submitting a task runs it at once when
`active < max`, else enqueues it; when a running task's promise settles
(fulfilled or rejected), `next()` decrements `active` and starts the
queue's head, if any.  The embedding is a step relation on an explicit
state; tasks are identified by their submission index. -/

/-- State of one limiter instance.  `running` lists the task ids whose
`fn()` is currently in flight, `queue` the ids whose `run` thunk is
queued (front = next to start), `started` the ids in the order their
`fn()` was invoked, `nextId` the id the next submission receives. -/
structure LimState where
  max : Int
  active : Nat
  queue : List Nat
  running : List Nat
  started : List Nat
  nextId : Nat
deriving Repr, DecidableEq

/-- Freshly constructed limiter (`active = 0`, empty queue). -/
def initLim (max : Int) : LimState :=
  ⟨max, 0, [], [], [], 0⟩

/-- Observable events against one limiter: a new task submission, or the
settling of a running task's promise (`ok = false` models rejection). -/
inductive LimEvent
  | submit
  | settle (tid : Nat) (ok : Bool)
deriving Repr, DecidableEq

/-- One step of the limiter.  `submit` mirrors `if (active < max) run();
else queue.push(run)`; `settle` mirrors `next()` running in the task's
`.then` handlers: `active--`, then `queue.shift()` and, when a thunk was
dequeued, invoking it (`active++`, its `fn()` starts).  Settling a task
that is not running is not an event the program can produce (`none`). -/
def limStep (s : LimState) : LimEvent → Option LimState
  | .submit =>
    if (s.active : Int) < s.max then
      some { s with active := s.active + 1, running := s.running ++ [s.nextId],
                    started := s.started ++ [s.nextId], nextId := s.nextId + 1 }
    else
      some { s with queue := s.queue ++ [s.nextId], nextId := s.nextId + 1 }
  | .settle tid _ =>
    if tid ∈ s.running then
      match s.queue with
      | [] => some { s with active := s.active - 1, running := s.running.erase tid }
      | q :: rest =>
        some { s with active := s.active - 1 + 1, queue := rest,
                      running := s.running.erase tid ++ [q],
                      started := s.started ++ [q] }
    else none

/-- Runs a list of events from a state; `none` when an impossible event
occurs. -/
def limRun (s : LimState) : List LimEvent → Option LimState
  | [] => some s
  | e :: es => (limStep s e).bind fun s' => limRun s' es

/-! ### Entry naming (`safeSlug` lines 17-23, `guessExt` lines 25-38,
file-name assembly lines 153-164) -/

/-- Characters the sanitizer keeps: the JS class `[\w.+-]`, i.e. ASCII
alphanumerics, `_`, `.`, `+`, `-`. -/
def isSlugChar (c : Char) : Bool :=
  c.isAlphanum || c = '_' || c = '.' || c = '+' || c = '-'

/-- Embedding of `.replace(/[^\w.+-]+/g, "_")`: each maximal run of
characters outside the class becomes a single underscore.  The boolean
argument records whether the previous character was part of such a run. -/
def collapseBad : Bool → List Char → List Char
  | _, [] => []
  | prevBad, c :: cs =>
    if isSlugChar c then c :: collapseBad false cs
    else if prevBad then collapseBad true cs
    else '_' :: collapseBad true cs

/-- Drops the longest suffix of `l` whose elements satisfy `p`. -/
def dropTrailing (p : Char → Bool) (l : List Char) : List Char :=
  (l.reverse.dropWhile p).reverse

/-- Embedding of `safeSlug` (route.ts lines 17-23): trim whitespace,
collapse runs of characters outside `[\w.+-]` to one `_`, strip leading
and trailing underscores, truncate to 120 characters. -/
def safeSlug (s : String) : String :=
  let trimmed := (s.toList.dropWhile Char.isWhitespace).reverse.dropWhile
    Char.isWhitespace |>.reverse
  let collapsed := collapseBad false trimmed
  let stripped := dropTrailing (· = '_') (collapsed.dropWhile (· = '_'))
  String.mk (stripped.take 120)

/-- ASCII lowercasing, the embedding of `String.prototype.toLowerCase`
for the ASCII header and path strings the route lowercases. -/
def lowerAscii (s : String) : String :=
  String.mk (s.toList.map Char.toLower)

/-- Substring test, the embedding of JS `String.prototype.includes`. -/
def strIncludes (hay needle : String) : Bool :=
  hay.toList.tails.any fun t => needle.toList.isPrefixOf t

/-- Suffix test, the embedding of JS `String.prototype.endsWith`. -/
def strEndsWith (s suffix : String) : Bool :=
  suffix.toList.reverse.isPrefixOf s.toList.reverse

/-- Models `new URL(url).pathname` for absolute `http(s)` URLs: the
segment after the authority, up to the query or fragment, `"/"` when the
authority is not followed by a slash; `none` models the constructor
throwing on other inputs (the route catches that and falls back to
`.bin`). -/
def urlPathname (url : String) : Option String :=
  let chars := url.toList
  let go : List Char → Option String := fun rest =>
    if rest.isEmpty then none
    else
      let afterHost := rest.dropWhile fun c => c ≠ '/' && c ≠ '?' && c ≠ '#'
      let path := afterHost.takeWhile fun c => c ≠ '?' && c ≠ '#'
      some (String.mk (if path.isEmpty then ['/'] else path))
  if ("http://".toList).isPrefixOf chars then go (chars.drop 7)
  else if ("https://".toList).isPrefixOf chars then go (chars.drop 8)
  else none

/-- Audio extensions recognized by the URL fallback of `guessExt`
(the regex `\.(mp3|wav|m4a|ogg|webm)(?:$|\?)` applied to the pathname,
case-insensitively; a pathname contains no `?`, so the regex is a
suffix test). -/
def extFromPath (path : String) : Option String :=
  ["mp3", "wav", "m4a", "ogg", "webm"].find? fun e =>
    strEndsWith (lowerAscii path) ("." ++ e)

/-- Embedding of `guessExt` (route.ts lines 25-38). -/
def guessExt (contentType : Option String) (url : Option String) : String :=
  let lower := lowerAscii (contentType.getD "")
  if strIncludes lower "audio/mpeg" || strIncludes lower "audio/mp3" then ".mp3"
  else if strIncludes lower "audio/wav" || strIncludes lower "audio/x-wav" then ".wav"
  else if strIncludes lower "audio/mp4" || strIncludes lower "audio/x-m4a" then ".m4a"
  else if strIncludes lower "audio/ogg" then ".ogg"
  else if strIncludes lower "audio/webm" then ".webm"
  else
    match urlPathname (url.getD "") with
    | some path =>
      match extFromPath path with
      | some e => "." ++ e
      | none => ".bin"
    | none => ".bin"

/-- Models `new Date(s).toISOString().slice(0, 10)` for timestamps that
are already UTC ISO-8601 strings (the only form the route's callers
supply): the first ten characters, `YYYY-MM-DD`. -/
def isoDate10 (s : String) : String :=
  String.mk (s.toList.take 10)

/-! ### Data model of the route -/

/-- Embedding of the `ZipItem` input descriptor (route.ts lines 7-14);
`none` models an absent / `null` optional field. -/
structure ZipItem where
  callId : Int
  recId : Int
  metaUrl : String
  created_time : Option String
  phone : Option String
  agent : Option String
deriving Repr, DecidableEq

/-- File-name assembly for one item (route.ts lines 153-164).  JS
truthiness: an absent field and the empty string both take the falsy
branch. -/
def entryFileName (it : ZipItem) (ext : String) : String :=
  let datePart := match it.created_time with
    | some t => if t = "" then "unknown-date" else isoDate10 t
    | none => "unknown-date"
  let phone := match it.phone with
    | some p =>
      if p = "" then ""
      else safeSlug (String.mk (p.toList.filter fun c => c = '+' || c.isDigit))
    | none => ""
  let agent := match it.agent with
    | some a => if a = "" then "" else safeSlug a
    | none => ""
  let base := datePart ++ "_call-" ++ toString it.callId ++ "_rec-" ++
    toString it.recId ++ (if phone = "" then "" else "_" ++ phone) ++
    (if agent = "" then "" else "_" ++ agent)
  safeSlug base ++ ext

/-- JSON returned by the metadata endpoint, as far as the route reads it:
`meta?.recording?.download_url`. -/
structure RecordingJson where
  download_url : Option String
deriving Repr, DecidableEq

/-- Top level of the metadata JSON. -/
structure MetaJson where
  recording : Option RecordingJson
deriving Repr, DecidableEq

/-- Embedding of `meta?.recording?.download_url` followed by the
truthiness test `if (!downloadUrl)` (route.ts lines 143-144): an absent
chain link or an empty string both count as missing. -/
def downloadUrlOf (m : MetaJson) : Option String :=
  match m.recording with
  | some r =>
    match r.download_url with
    | some u => if u = "" then none else some u
    | none => none
  | none => none

/-- The streamed response body: the byte lengths of the chunks the
reader delivers, then either a clean end (`readError = none`) or a read
rejection carrying an error message. -/
structure StreamSpec where
  chunks : List Nat
  readError : Option String
deriving Repr, DecidableEq

/-- A successful (`r.ok`) audio response: its `content-type` header and
its body (`none` models a response with no readable body). -/
structure AudioRes where
  contentType : Option String
  body : Option StreamSpec
deriving Repr, DecidableEq

/-- Network oracles for one item: attempt index ↦ outcome of the
retry-wrapped metadata fetch (route.ts lines 135-141) and of the
retry-wrapped audio fetch (lines 147-151).  An `Except.error` carries
the thrown error's message (e.g. `"metadata fetch 500"`). -/
structure ItemEnv where
  metaAttempt : Nat → Except String MetaJson
  audioAttempt : Nat → Except String AudioRes

/-- Element of `manifest.entries` (route.ts lines 183-188). -/
structure ManifestEntry where
  callId : Int
  recId : Int
  file : String
  bytes : Nat
deriving Repr, DecidableEq

/-- Element of `manifest.errors` (route.ts lines 190-194). -/
structure ManifestError where
  callId : Int
  recId : Int
  error : String
deriving Repr, DecidableEq

/-- The manifest accumulator (route.ts lines 112-122). -/
structure Manifest where
  generated_at : String
  count : Nat
  entries : List ManifestEntry
  errors : List ManifestError
deriving Repr, DecidableEq

/-- Calls the route issues against the fflate `Zip` writer: `zip.add`
of a named entry, `entry.push` of a chunk (`final = true` seals the
entry), and `zip.end`. -/
inductive ZipEvent
  | add (name : String)
  | push (name : String) (bytes : Nat) (final : Bool)
  | endArchive
deriving Repr, DecidableEq

/-- Embedding of `e?.message || String(e)` (route.ts line 193) for the
thrown values the task can see, which are modeled by their message
strings; `none` is the undefined `lastErr` re-thrown by a zero-attempt
`retry`. -/
def jsErrMsg : Option String → String
  | some m => if m = "" then "Error" else m
  | none => "undefined"

/-! ### Per-item task (route.ts lines 131-196)

Each item's task body: metadata resolution under `retry` (default
`tries = 3`), the `download_url` truthiness check, the audio fetch under
`retry`, extension and file-name derivation, `zip.add`, the chunk loop
pushing into the entry, the sealing push, and the `manifest.entries`
push; the surrounding `try/catch` turns any thrown error into one
`manifest.errors` push instead.  The function returns the `Zip` calls
the task issued and the single manifest mutation it performed. -/

/-- Result of one item task: the `Zip` writer calls it made, in order,
and its one manifest append (`Sum.inl` = `manifest.errors.push`,
`Sum.inr` = `manifest.entries.push`). -/
def processItem (env : ItemEnv) (it : ZipItem) :
    List ZipEvent × (ManifestError ⊕ ManifestEntry) :=
  match (retryRun env.metaAttempt 3).result with
  | .error e => ([], .inl ⟨it.callId, it.recId, jsErrMsg e⟩)
  | .ok meta =>
    match downloadUrlOf meta with
    | none => ([], .inl ⟨it.callId, it.recId, "no download_url in metadata"⟩)
    | some u =>
      match (retryRun env.audioAttempt 3).result with
      | .error e => ([], .inl ⟨it.callId, it.recId, jsErrMsg e⟩)
      | .ok res =>
        let fileName := entryFileName it (guessExt res.contentType (some u))
        match res.body with
        | none => ([.add fileName], .inl ⟨it.callId, it.recId, "no readable body"⟩)
        | some stream =>
          let pushes := stream.chunks.map fun n => ZipEvent.push fileName n false
          match stream.readError with
          | some msg => (.add fileName :: pushes, .inl ⟨it.callId, it.recId, msg⟩)
          | none =>
            (.add fileName :: (pushes ++ [.push fileName 0 true]),
             .inr ⟨it.callId, it.recId, fileName, stream.chunks.sum⟩)

/-- Number of metadata-fetch attempts one item's task performs. -/
def metaAttemptsUsed (env : ItemEnv) : Nat :=
  (retryRun env.metaAttempt 3).attemptsUsed

/-- Number of audio-fetch attempts one item's task performs. -/
def audioAttemptsUsed (env : ItemEnv) : Nat :=
  (retryRun env.audioAttempt 3).attemptsUsed

/-! ### The serialized manifest (`JSON.stringify(manifest, null, 2)`) -/

/-- JSON values, as far as the manifest needs them. -/
inductive JVal
  | str (s : String)
  | num (n : Int)
  | arr (elems : List JVal)
  | obj (fields : List (String × JVal))

/-- Hexadecimal digit, for `\u00XX` escapes. -/
def hexDigit (n : Nat) : Char :=
  if n < 10 then Char.ofNat ('0'.toNat + n) else Char.ofNat ('a'.toNat + n - 10)

/-- JSON string escaping as `JSON.stringify` performs it. -/
def jsonEscapeChar (c : Char) : String :=
  if c = '"' then "\\\""
  else if c = '\\' then "\\\\"
  else if c = '\n' then "\\n"
  else if c = '\r' then "\\r"
  else if c = '\t' then "\\t"
  else if c.toNat = 8 then "\\b"
  else if c.toNat = 12 then "\\f"
  else if c.toNat < 32 then
    String.mk ['\\', 'u', '0', '0', hexDigit (c.toNat / 16), hexDigit (c.toNat % 16)]
  else String.singleton c

/-- Escapes a whole string and wraps it in quotes. -/
def jsonQuote (s : String) : String :=
  "\"" ++ String.join (s.toList.map jsonEscapeChar) ++ "\""

/-- Indentation prefix of `n` spaces. -/
def spaces (n : Nat) : String :=
  String.mk (List.replicate n ' ')

mutual

/-- Pretty-printer matching `JSON.stringify(v, null, 2)`: `indent` is
the indentation of the line the value starts on. -/
def jvalStr (indent : Nat) : JVal → String
  | .str s => jsonQuote s
  | .num n => toString n
  | .arr xs =>
    if xs.isEmpty then "[]"
    else "[\n" ++ jarrStr (indent + 2) xs ++ "\n" ++ spaces indent ++ "]"
  | .obj fs =>
    if fs.isEmpty then "\x7b\x7d"
    else "\x7b\n" ++ jobjStr (indent + 2) fs ++ "\n" ++ spaces indent ++ "\x7d"

/-- Comma-and-newline separated array elements. -/
def jarrStr (indent : Nat) : List JVal → String
  | [] => ""
  | [x] => spaces indent ++ jvalStr indent x
  | x :: y :: xs =>
    spaces indent ++ jvalStr indent x ++ ",\n" ++ jarrStr indent (y :: xs)

/-- Comma-and-newline separated object fields. -/
def jobjStr (indent : Nat) : List (String × JVal) → String
  | [] => ""
  | [(k, v)] => spaces indent ++ jsonQuote k ++ ": " ++ jvalStr indent v
  | (k, v) :: f :: fs =>
    spaces indent ++ jsonQuote k ++ ": " ++ jvalStr indent v ++ ",\n" ++
      jobjStr indent (f :: fs)

end

/-- The JSON object pushed by `manifest.entries.push` (route.ts lines
183-188), field order as in the literal. -/
def entryJson (e : ManifestEntry) : JVal :=
  .obj [("callId", .num e.callId), ("recId", .num e.recId),
        ("file", .str e.file), ("bytes", .num e.bytes)]

/-- The JSON object pushed by `manifest.errors.push` (route.ts lines
190-194), field order as in the literal. -/
def errorJson (e : ManifestError) : JVal :=
  .obj [("callId", .num e.callId), ("recId", .num e.recId),
        ("error", .str e.error)]

/-- The manifest as the JSON object built at route.ts lines 112-122. -/
def manifestJson (m : Manifest) : JVal :=
  .obj [("generated_at", .str m.generated_at), ("count", .num m.count),
        ("entries", .arr (m.entries.map entryJson)),
        ("errors", .arr (m.errors.map errorJson))]

/-- The text serialized into the `manifest.json` archive entry:
`JSON.stringify(manifest, null, 2)` (route.ts line 203). -/
def manifestText (m : Manifest) : String :=
  jvalStr 0 (manifestJson m)

/-- Key list of a serialized JSON object. -/
def JVal.topKeys : JVal → List String
  | .obj fs => fs.map Prod.fst
  | _ => []

/-! ### The orchestrator (`POST`, route.ts lines 84-223)

`POST` parses the body, rejects a missing/non-array/empty `items` with
`400 "No items supplied"`, and otherwise runs every item's task under
the limiter, awaits `Promise.allSettled(tasks)`, appends
`manifest.json` via `addTextFile` (a `ZipPassThrough` entry receiving
one final push of the serialized manifest) and calls `zip.end()`.

The embedding replaces the nondeterministic concurrent interleaving of
the tasks by an explicit `settleOrder`: the list of item indices in the
order their tasks settled (any permutation of the indices; each task's
writer calls are kept contiguous).  The request body is
`Option (List ZipItem)`: `none` models an absent or non-array `items`
field. -/

/-- Response of the route: a plain error response, or the archive
described by the `Zip` writer calls made and the final manifest. -/
inductive PostResponse
  | httpError (status : Nat) (body : String)
  | archive (events : List ZipEvent) (manifest : Manifest)
deriving Repr, DecidableEq

/-- The per-item task results, in item order (`items.map((it) =>
limit(async () => ...))`); `env i` supplies item `i`'s network
oracles. -/
def itemResults (env : Nat → ItemEnv) (its : List ZipItem) :
    List (List ZipEvent × (ManifestError ⊕ ManifestEntry)) :=
  its.enum.map fun p => processItem (env p.1) p.2

/-- The task results in the order the tasks settled. -/
def settledResults (env : Nat → ItemEnv) (settleOrder : List Nat)
    (its : List ZipItem) :
    List (List ZipEvent × (ManifestError ⊕ ManifestEntry)) :=
  settleOrder.filterMap fun i => (itemResults env its).get? i

/-- All writer calls the item tasks issued. -/
def itemEventsOf (env : Nat → ItemEnv) (settleOrder : List Nat)
    (its : List ZipItem) : List ZipEvent :=
  ((settledResults env settleOrder its).map Prod.fst).flatten

/-- The final manifest: `generated_at`/`count` are set when the
accumulator is created (lines 112-122); the arrays grow by one element
per settled task. -/
def manifestOf (env : Nat → ItemEnv) (now : String) (settleOrder : List Nat)
    (its : List ZipItem) : Manifest :=
  ⟨now, its.length,
   (settledResults env settleOrder its).filterMap fun r =>
     match r.2 with | .inr e => some e | .inl _ => none,
   (settledResults env settleOrder its).filterMap fun r =>
     match r.2 with | .inl e => some e | .inr _ => none⟩

/-- Embedding of `POST` (route.ts lines 84-223).  `now` is the
timestamp sampled for `generated_at`. -/
def runPOST (env : Nat → ItemEnv) (now : String) (settleOrder : List Nat)
    (items : Option (List ZipItem)) : PostResponse :=
  match items with
  | none => .httpError 400 "No items supplied"
  | some its =>
    if its.length = 0 then .httpError 400 "No items supplied"
    else
      let m := manifestOf env now settleOrder its
      .archive
        (itemEventsOf env settleOrder its ++
          [.add "manifest.json",
           .push "manifest.json" (manifestText m).utf8ByteSize true,
           .endArchive])
        m

/-- The manifest of an archive response, if any. -/
def responseManifest : PostResponse → Option Manifest
  | .archive _ m => some m
  | .httpError _ _ => none

/-- The writer calls of an archive response. -/
def responseEvents : PostResponse → List ZipEvent
  | .archive ev _ => ev
  | .httpError _ _ => []

/-- File names recorded in the response manifest's `entries`. -/
def responseEntryFiles (r : PostResponse) : List String :=
  match responseManifest r with
  | some m => m.entries.map ManifestEntry.file
  | none => []

/-- Keys of the serialized response manifest. -/
def responseManifestKeys (r : PostResponse) : List String :=
  match responseManifest r with
  | some m => (manifestJson m).topKeys
  | none => []

/-- Key lists of the serialized `entries` elements of the response
manifest. -/
def responseEntriesKeys (r : PostResponse) : List (List String) :=
  match responseManifest r with
  | some m => m.entries.map fun e => (entryJson e).topKeys
  | none => []

/-- Key lists of the serialized `errors` elements of the response
manifest. -/
def responseErrorsKeys (r : PostResponse) : List (List String) :=
  match responseManifest r with
  | some m => m.errors.map fun e => (errorJson e).topKeys
  | none => []

/-! ### Concrete environments used to instantiate the theorems -/

/-- Value of a non-empty all-digit character list, in decimal. -/
def decDigits : List Char → Option Nat
  | [] => none
  | l =>
    if l.all Char.isDigit then
      some (l.foldl (fun acc c => acc * 10 + (c.toNat - '0'.toNat)) 0)
    else none

/-- Optionally-signed decimal integer, the restriction of JS `Number`
under which the concurrency ceiling is modeled. -/
def parseDecInt (s : String) : Option Int :=
  match s.toList with
  | '-' :: rest => (decDigits rest).map fun n => -(n : Int)
  | '+' :: rest => (decDigits rest).map fun n => (n : Int)
  | l => (decDigits l).map fun n => (n : Int)

/-- Models `Number(process.env.ZIP_CONCURRENCY || 8)` (route.ts line 92)
for an unset / empty variable or an optionally-signed decimal-integer
value; `none` when `Number` would produce a non-integer. -/
def zipConcurrency : Option String → Option Int
  | none => some 8
  | some s => if s = "" then some 8 else parseDecInt s

/-- Invariant of every reachable limiter state: `max` is the construction
argument, `active` counts the running tasks, `active` never exceeds a
positive `max`, and the queue lists task ids in strictly increasing
submission order, all older than the next id. -/
def LimInv (max : Int) (s : LimState) : Prop :=
  s.max = max ∧ s.active = s.running.length ∧
  ((s.active : Int) ≤ max ∨ s.active = 0) ∧
  List.Chain' (· < ·) s.queue ∧ ∀ x ∈ s.queue, x < s.nextId

/-- The input item of the spec's scenario: `{callId:1, recId:10,
metaUrl:"m1", created_time:"2024-01-05T00:00:00Z", phone:"+123",
agent:"A Name"}`. -/
def itemScenario : ZipItem :=
  ⟨1, 10, "m1", some "2024-01-05T00:00:00Z", some "+123", some "A Name"⟩

/-- Environment of the scenario: metadata resolves first try with a
`download_url`, the audio fetch succeeds first try with an `audio/mpeg`
payload delivered as one 1000-byte chunk. -/
def envScenario : Nat → ItemEnv := fun _ =>
  ⟨fun _ => .ok ⟨some ⟨some "https://cdn/a"⟩⟩,
   fun _ => .ok ⟨some "audio/mpeg", some ⟨[1000], none⟩⟩⟩

/-- Environment whose metadata fetch succeeds on the very first attempt
but returns JSON without a `download_url`. -/
def envNoUrl : ItemEnv :=
  ⟨fun _ => .ok ⟨some ⟨none⟩⟩, fun _ => .error "unused"⟩

/-- Environment whose metadata fetch fails once, then returns JSON
without a `download_url` on the second attempt. -/
def envNoUrlRetry : ItemEnv :=
  ⟨fun i => if i = 0 then .error "metadata fetch 500" else .ok ⟨some ⟨none⟩⟩,
   fun _ => .error "unused"⟩

/-- Environment whose audio stream delivers one 5-byte chunk and then
the reader rejects with `"read failed"`. -/
def envStreamFail : ItemEnv :=
  ⟨fun _ => .ok ⟨some ⟨some "https://cdn/a"⟩⟩,
   fun _ => .ok ⟨some "audio/mpeg", some ⟨[5], some "read failed"⟩⟩⟩

/-- Retry oracle failing on attempts 0 and 1 and succeeding on 2. -/
def retryFnW : Nat → Except String Nat :=
  fun i => if i = 2 then .ok 7 else .error ("e" ++ toString i)

/-- Retry oracle failing on every attempt. -/
def retryFnFail : Nat → Except String Nat :=
  fun i => .error ("e" ++ toString i)

/-! ### Retry wrapper: lemmas and contract -/

/-- The loop performs at most the remaining number of attempts. -/
theorem retryAux_used_le (fn : Nat → Except E A) :
    ∀ (r i : Nat) (le : Option E), (retryAux fn le i r).attemptsUsed ≤ i + r := by
  intro r
  induction r with
  | zero => intro i le; simp [retryAux]
  | succ r ih =>
    intro i le
    simp only [retryAux]
    cases fn i with
    | ok a => simp
    | error e =>
      have h := ih (i + 1) (some e)
      dsimp only
      omega

/-- When attempts `i, …, i+k-1` fail and attempt `i+k` succeeds within
the budget, the loop returns that success after `i+k+1` total attempts,
sleeping exactly after each of the `k` failures. -/
theorem retryAux_ok (fn : Nat → Except E A) (a : A) (es : Nat → E) :
    ∀ (k r i : Nat) (le : Option E), k < r →
      (∀ j, j < k → fn (i + j) = .error (es (i + j))) →
      fn (i + k) = .ok a →
      retryAux fn le i r = ⟨.ok a, i + k + 1, (List.range k).map (i + ·)⟩ := by
  intro k
  induction k with
  | zero =>
    intro r i le hk _ hok
    cases r with
    | zero => omega
    | succ r =>
      simp only [retryAux]
      rw [show i + 0 = i from rfl] at hok
      rw [hok]
      rfl
  | succ k ih =>
    intro r i le hk hfail hok
    cases r with
    | zero => omega
    | succ r =>
      have h0 : fn i = .error (es i) := by
        have := hfail 0 (Nat.succ_pos k)
        simpa using this
      simp only [retryAux]
      rw [h0]
      have hrec := ih r (i + 1) (some (es i)) (Nat.lt_of_succ_lt_succ hk)
        (fun j hj => by
          have h := hfail (j + 1) (Nat.succ_lt_succ hj)
          rw [show i + (j + 1) = i + 1 + j from by omega] at h
          exact h)
        (by rw [show i + 1 + k = i + (k + 1) from by omega]; exact hok)
      show (⟨(retryAux fn (some (es i)) (i + 1) r).result,
             (retryAux fn (some (es i)) (i + 1) r).attemptsUsed,
             i :: (retryAux fn (some (es i)) (i + 1) r).delayExponents⟩ : RetryOutcome E A) =
          ⟨.ok a, i + (k + 1) + 1, (List.range (k + 1)).map (i + ·)⟩
      rw [hrec]
      have h2 : ((i + ·) ∘ Nat.succ) = ((i + 1) + ·) := by
        funext x
        simp only [Function.comp]
        omega
      simp [List.range_succ_eq_map, List.map_map, h2]
      omega

/-- When every attempt of the remaining budget fails, the loop re-throws
the last error after sleeping once per failure — including the final
one. -/
theorem retryAux_all_fail (fn : Nat → Except E A) (es : Nat → E) :
    ∀ (r i : Nat) (le : Option E),
      (∀ j, j < r → fn (i + j) = .error (es (i + j))) →
      retryAux fn le i r =
        ⟨.error (match r with | 0 => le | _ + 1 => some (es (i + r - 1))),
         i + r, (List.range r).map (i + ·)⟩ := by
  intro r
  induction r with
  | zero => intro i le _; rfl
  | succ r ih =>
    intro i le hfail
    have h0 : fn i = .error (es i) := by
      have := hfail 0 (Nat.succ_pos r)
      simpa using this
    simp only [retryAux]
    rw [h0]
    have hrec := ih (i + 1) (some (es i))
      (fun j hj => by
        have h := hfail (j + 1) (Nat.succ_lt_succ hj)
        rw [show i + (j + 1) = i + 1 + j from by omega] at h
        exact h)
    show (⟨(retryAux fn (some (es i)) (i + 1) r).result,
           (retryAux fn (some (es i)) (i + 1) r).attemptsUsed,
           i :: (retryAux fn (some (es i)) (i + 1) r).delayExponents⟩ : RetryOutcome E A) =
        ⟨.error (some (es (i + (r + 1) - 1))), i + (r + 1),
         (List.range (r + 1)).map (i + ·)⟩
    rw [hrec]
    have h2 : ((i + ·) ∘ Nat.succ) = ((i + 1) + ·) := by
      funext x
      simp only [Function.comp]
      omega
    have hl : i :: (List.range r).map ((i + 1) + ·) =
        (List.range (r + 1)).map (i + ·) := by
      rw [List.range_succ_eq_map, List.map_cons, List.map_map, h2]
      simp
    simp only [RetryOutcome.mk.injEq, Except.error.injEq]
    refine ⟨?_, by omega, hl⟩
    cases r with
    | zero => rfl
    | succ r' => exact congrArg (fun n => some (es n)) (by omega)

/-- Top-level corollary: failures on attempts `0..k-1` and a success at
attempt `k < tries` yield that success after `k+1` attempts and `k`
backoff sleeps (exponents `0..k-1`). -/
theorem retryRun_ok (fn : Nat → Except E A) (a : A) (es : Nat → E)
    (k tries : Nat) (hk : k < tries)
    (hfail : ∀ j, j < k → fn j = .error (es j)) (hok : fn k = .ok a) :
    retryRun fn tries = ⟨.ok a, k + 1, List.range k⟩ := by
  have h := retryAux_ok fn a es k tries 0 none hk
    (fun j hj => by simpa using hfail j hj) (by simpa using hok)
  simpa [retryRun] using h

/-- Top-level corollary: when every attempt fails, the last error is
re-thrown after `tries` attempts and `tries` backoff sleeps (exponents
`0..tries-1`). -/
theorem retryRun_all_fail (fn : Nat → Except E A) (es : Nat → E)
    (tries : Nat) (h1 : 0 < tries)
    (hfail : ∀ j, j < tries → fn j = .error (es j)) :
    retryRun fn tries = ⟨.error (some (es (tries - 1))), tries, List.range tries⟩ := by
  have h := retryAux_all_fail fn es tries 0 none
    (fun j hj => by simpa using hfail j hj)
  cases tries with
  | zero => omega
  | succ n => simpa [retryRun] using h

/-- C6: `retry(operation, maxAttempts, baseDelay)` attempts the
operation at most `maxAttempts` times; a success is returned immediately
with no further attempts or sleeps beyond the preceding failures'; each
failure is followed by a backoff sleep of `baseDelay * 2^attempt +
jitter` with jitter in `[0, 250)`; and when every attempt fails the
promise rejects with exactly the last error, unchanged. -/
theorem retry_contract (fn : Nat → Except E A) (tries : Nat) (base : ℚ)
    (jitter : Nat → ℚ) (hjit : ∀ i, 0 ≤ jitter i ∧ jitter i < 250) :
    (retryRun fn tries).attemptsUsed ≤ tries ∧
    (∀ k a (es : Nat → E), k < tries → (∀ j, j < k → fn j = .error (es j)) →
      fn k = .ok a → retryRun fn tries = ⟨.ok a, k + 1, List.range k⟩) ∧
    (∀ (es : Nat → E), 0 < tries → (∀ j, j < tries → fn j = .error (es j)) →
      (retryRun fn tries).result = .error (some (es (tries - 1)))) ∧
    (∀ i, base * 2 ^ i ≤ backoffOf base jitter i ∧
      backoffOf base jitter i < base * 2 ^ i + 250) := by
  refine ⟨?_, ?_, ?_, ?_⟩
  · have h := retryAux_used_le fn tries 0 none
    simpa [retryRun] using h
  · intro k a es hk hfail hok
    exact retryRun_ok fn a es k tries hk hfail hok
  · intro es h1 hfail
    rw [retryRun_all_fail fn es tries h1 hfail]
  · intro i
    have h1 := (hjit i).1
    have h2 := (hjit i).2
    constructor
    · simp only [backoffOf]
      linarith
    · simp only [backoffOf]
      linarith

/-- Closed instance of `retry_contract` at a concrete oracle that fails
twice and succeeds on the third attempt, with `base = 400` and zero
jitter. -/
theorem retry_contract_witness :
    (retryRun retryFnW 3).attemptsUsed ≤ 3 ∧
    (∀ k a (es : Nat → String), k < 3 → (∀ j, j < k → retryFnW j = .error (es j)) →
      retryFnW k = .ok a → retryRun retryFnW 3 = ⟨.ok a, k + 1, List.range k⟩) ∧
    (∀ (es : Nat → String), 0 < 3 → (∀ j, j < 3 → retryFnW j = .error (es j)) →
      (retryRun retryFnW 3).result = .error (some (es 2))) ∧
    (∀ i, (400 : ℚ) * 2 ^ i ≤ backoffOf 400 (fun _ => 0) i ∧
      backoffOf 400 (fun _ => 0) i < 400 * 2 ^ i + 250) :=
  retry_contract retryFnW 3 400 (fun _ => 0) (fun _ => ⟨le_refl 0, by norm_num⟩)

/-- C10: when every attempt fails, the backoff sleep runs after every
failed attempt including the final one — the exponents executed are
exactly `0..tries-1`, the last being `tries-1` — and only then is the
last error propagated. -/
theorem retry_delay_after_final_failure (fn : Nat → Except E A)
    (tries : Nat) (es : Nat → E) (h1 : 0 < tries)
    (hfail : ∀ j, j < tries → fn j = .error (es j)) :
    (retryRun fn tries).delayExponents = List.range tries ∧
    ((retryRun fn tries).delayExponents).getLast? = some (tries - 1) ∧
    (retryRun fn tries).result = .error (some (es (tries - 1))) := by
  rw [retryRun_all_fail fn es tries h1 hfail]
  refine ⟨rfl, ?_, rfl⟩
  cases tries with
  | zero => omega
  | succ n => simp [List.range_succ]

/-- Closed instance of `retry_delay_after_final_failure` at a concrete
always-failing oracle with three attempts. -/
theorem retry_delay_after_final_failure_witness :
    (retryRun retryFnFail 3).delayExponents = List.range 3 ∧
    ((retryRun retryFnFail 3).delayExponents).getLast? = some 2 ∧
    (retryRun retryFnFail 3).result = .error (some "e2") := by
  simpa using retry_delay_after_final_failure retryFnFail 3
    (fun i => "e" ++ toString i) (by norm_num) (fun j _ => rfl)

/-- Generic preservation principle for `limRun`. -/
theorem limRun_inv (P : LimState → Prop)
    (hstep : ∀ s e s', P s → limStep s e = some s' → P s')
    {s₀ : LimState} (h₀ : P s₀) :
    ∀ tr s, limRun s₀ tr = some s → P s := by
  intro tr
  induction tr generalizing s₀ with
  | nil => intro s h; cases h; exact h₀
  | cons e es ih =>
    intro s h
    simp only [limRun, Option.bind_eq_bind] at h
    cases hstep' : limStep s₀ e with
    | none => rw [hstep'] at h; cases h
    | some s₁ =>
      rw [hstep'] at h
      exact ih (hstep _ _ _ h₀ hstep') s h


/-- Every limiter step preserves `LimInv`. -/
theorem limStep_inv (max : Int) (s s' : LimState) (e : LimEvent)
    (h : LimInv max s) (hs : limStep s e = some s') : LimInv max s' := by
  obtain ⟨hm, ha, hb, hc, hn⟩ := h
  cases e with
  | submit =>
    simp only [limStep] at hs
    split at hs
    next hlt =>
      cases hs
      refine ⟨hm, by simp [ha], ?_, hc, ?_⟩
      · left
        rw [hm] at hlt
        show ((s.active + 1 : Nat) : Int) ≤ max
        push_cast
        omega
      · intro x hx
        have := hn x hx
        show x < s.nextId + 1
        omega
    next hlt =>
      cases hs
      refine ⟨hm, ha, hb, ?_, ?_⟩
      · refine List.Chain'.append hc (List.chain'_singleton _) ?_
        intro x hx y hy
        simp only [List.head?_cons, Option.mem_def, Option.some.injEq] at hy
        subst hy
        rcases List.mem_getLast?_eq_getLast hx with ⟨hne, rfl⟩
        exact hn _ (List.getLast_mem hne)
      · intro x hx
        simp only [List.mem_append, List.mem_singleton] at hx
        show x < s.nextId + 1
        rcases hx with hx | hx
        · have := hn x hx
          omega
        · omega
  | settle tid ok =>
    simp only [limStep] at hs
    split at hs
    next htid =>
      have hpos : 1 ≤ s.active := by
        rw [ha]
        exact List.length_pos.mpr (List.ne_nil_of_mem htid)
      split at hs
      next hq =>
        cases hs
        refine ⟨hm, ?_, ?_, by simp [hq], fun x hx => hn x hx⟩
        · show s.active - 1 = (s.running.erase tid).length
          rw [List.length_erase_of_mem htid]
          omega
        · show ((s.active - 1 : Nat) : Int) ≤ max ∨ s.active - 1 = 0
          rcases hb with hb | hb
          · left
            omega
          · omega
      next q rest hq =>
        cases hs
        refine ⟨hm, ?_, ?_, ?_, ?_⟩
        · show s.active - 1 + 1 = (s.running.erase tid ++ [q]).length
          rw [List.length_append, List.length_erase_of_mem htid]
          simp only [List.length_singleton]
          omega
        · show ((s.active - 1 + 1 : Nat) : Int) ≤ max ∨ s.active - 1 + 1 = 0
          rcases hb with hb | hb
          · left
            omega
          · omega
        · show List.Chain' (· < ·) rest
          have hc2 := hc
          rw [hq] at hc2
          exact hc2.tail
        · intro x hx
          refine hn x ?_
          rw [hq]
          exact List.mem_cons_of_mem _ hx
    next htid =>
      exact Option.noConfusion hs

/-- C2: for a limiter built with `max ≥ 1`, in every reachable state at
most `max` tasks are running simultaneously; the queue holds waiting
tasks in submission (FIFO) order, so the task started when a slot frees
is the earliest-submitted waiting one; and a task's settling — with
rejection (`ok = false`) just as with fulfilment — releases its slot and
starts the queue's head. -/
theorem createLimiter_bound_fifo_release (max : Int) (hmax : 1 ≤ max)
    (tr : List LimEvent) (s : LimState)
    (h : limRun (initLim max) tr = some s) :
    (s.running.length : Int) ≤ max ∧
    List.Chain' (· < ·) s.queue ∧
    (∀ q rest tid ok, s.queue = q :: rest → tid ∈ s.running →
      (∀ x ∈ rest, q < x) ∧
      limStep s (.settle tid ok) =
        some ⟨max, s.active, rest, s.running.erase tid ++ [q],
              s.started ++ [q], s.nextId⟩) := by
  have hinv : LimInv max s :=
    limRun_inv (LimInv max)
      (fun s e s' hp heq => limStep_inv max s s' e hp heq)
      (by exact ⟨rfl, rfl, Or.inr rfl, List.chain'_nil, by simp [initLim]⟩)
      tr s h
  obtain ⟨hm, ha, hb, hc, hn⟩ := hinv
  refine ⟨by omega, hc, ?_⟩
  intro q rest tid ok hq htid
  have hpos : 1 ≤ s.active := by
    rw [ha]
    exact List.length_pos.mpr (List.ne_nil_of_mem htid)
  constructor
  · have hpair := List.chain'_iff_pairwise.mp (hq ▸ hc)
    exact (List.pairwise_cons.mp hpair).1
  · rcases s with ⟨m0, a0, qu, ru, st, ni⟩
    simp only at hm ha hq htid hpos
    subst hm
    subst hq
    simp only [limStep, if_pos htid]
    have hact : a0 - 1 + 1 = a0 := by omega
    rw [hact]


/-- Closed instance of `createLimiter_bound_fifo_release`: limiter with
`max = 1`, two submissions (the second queues), reached state checked
concretely. -/
theorem createLimiter_bound_fifo_release_witness :
    (((⟨1, 1, [1], [0], [0], 2⟩ : LimState).running.length : Int) ≤ 1 ∧
     List.Chain' (· < ·) (⟨1, 1, [1], [0], [0], 2⟩ : LimState).queue ∧
     (∀ q rest tid ok,
        (⟨1, 1, [1], [0], [0], 2⟩ : LimState).queue = q :: rest →
        tid ∈ (⟨1, 1, [1], [0], [0], 2⟩ : LimState).running →
        (∀ x ∈ rest, q < x) ∧
        limStep (⟨1, 1, [1], [0], [0], 2⟩ : LimState) (.settle tid ok) =
          some ⟨1, (⟨1, 1, [1], [0], [0], 2⟩ : LimState).active, rest,
                (⟨1, 1, [1], [0], [0], 2⟩ : LimState).running.erase tid ++ [q],
                (⟨1, 1, [1], [0], [0], 2⟩ : LimState).started ++ [q],
                (⟨1, 1, [1], [0], [0], 2⟩ : LimState).nextId⟩)) :=
  createLimiter_bound_fifo_release 1 (by decide) [.submit, .submit]
    ⟨1, 1, [1], [0], [0], 2⟩ (by decide)

/-- C9: a limiter built with `max ≤ 0` — reachable, since
`ZIP_CONCURRENCY = "0"` parses to a concurrency ceiling of `0` — never
starts any submitted task: nothing ever runs, every submission stays
queued forever, and hence no task's limiter promise can ever settle. -/
theorem createLimiter_nonpositive_stalls (max : Int) (hmax : max ≤ 0)
    (tr : List LimEvent) (s : LimState)
    (h : limRun (initLim max) tr = some s) :
    s.started = [] ∧ s.running = [] ∧ s.active = 0 ∧
    s.queue.length = s.nextId ∧ zipConcurrency (some "0") = some 0 := by
  have key :
      s.max ≤ 0 ∧ s.active = 0 ∧ s.running = [] ∧ s.started = [] ∧
        s.queue.length = s.nextId := by
    refine limRun_inv
      (fun t => t.max ≤ 0 ∧ t.active = 0 ∧ t.running = [] ∧ t.started = [] ∧
        t.queue.length = t.nextId) ?_ ?_ tr s h
    · intro t e t' hp heq
      obtain ⟨pm, pa, pr, ps, pq⟩ := hp
      cases e with
      | submit =>
        simp only [limStep] at heq
        split at heq
        next hlt =>
          exfalso
          rw [pa] at hlt
          omega
        next hlt =>
          cases heq
          refine ⟨pm, pa, pr, ps, ?_⟩
          show (t.queue ++ [t.nextId]).length = t.nextId + 1
          simp [pq]
      | settle tid ok =>
        simp only [limStep] at heq
        split at heq
        next htid =>
          rw [pr] at htid
          simp at htid
        next htid =>
          exact Option.noConfusion heq
    · exact ⟨hmax, rfl, rfl, rfl, rfl⟩
  obtain ⟨_, pa, pr, ps, pq⟩ := key
  exact ⟨ps, pr, pa, pq, by decide⟩

/-- Closed instance of `createLimiter_nonpositive_stalls`: with
`max = 0`, one submission is queued and nothing ever starts. -/
theorem createLimiter_nonpositive_stalls_witness :
    (⟨0, 0, [0], [], [], 1⟩ : LimState).started = [] ∧
    (⟨0, 0, [0], [], [], 1⟩ : LimState).running = [] ∧
    (⟨0, 0, [0], [], [], 1⟩ : LimState).active = 0 ∧
    (⟨0, 0, [0], [], [], 1⟩ : LimState).queue.length =
      (⟨0, 0, [0], [], [], 1⟩ : LimState).nextId ∧
    zipConcurrency (some "0") = some 0 :=
  createLimiter_nonpositive_stalls 0 (by decide) [.submit]
    ⟨0, 0, [0], [], [], 1⟩ (by decide)


/-! ### Orchestrator lemmas and contract -/

/-- No string ending in one of the audio extensions (or `.bin`) is
`"manifest.json"`. -/
theorem append_ne_manifest (s ext : String)
    (hx : ext ∈ [".mp3", ".wav", ".m4a", ".ogg", ".webm", ".bin"]) :
    s ++ ext ≠ "manifest.json" := by
  intro h
  have hd : s.data ++ ext.data = "manifest.json".data := by
    rw [← String.data_append, h]
  have hpre : ext.data.reverse <+: "manifest.json".data.reverse :=
    ⟨s.data.reverse, by rw [← List.reverse_append, hd]⟩
  simp only [List.mem_cons, List.mem_singleton, List.not_mem_nil, or_false] at hx
  rcases hx with rfl | rfl | rfl | rfl | rfl | rfl <;> revert hpre <;> decide

/-- Extensions produced by `guessExt`: the five audio ones or `.bin`. -/
theorem guessExt_mem (ct url : Option String) :
    guessExt ct url ∈ [".mp3", ".wav", ".m4a", ".ogg", ".webm", ".bin"] := by
  unfold guessExt
  dsimp only
  split_ifs
  · simp
  · simp
  · simp
  · simp
  · simp
  · split
    · split
      next e hfind =>
        have he := List.mem_of_find?_eq_some hfind
        simp only [List.mem_cons, List.mem_singleton, List.not_mem_nil,
          or_false] at he
        rcases he with rfl | rfl | rfl | rfl | rfl <;> decide
      next => simp
    · simp

/-- An item's archive entry is never named `"manifest.json"`. -/
theorem entryFileName_ne_manifest (it : ZipItem) (ct url : Option String) :
    entryFileName it (guessExt ct url) ≠ "manifest.json" := by
  have hmem := guessExt_mem ct url
  dsimp only [entryFileName]
  exact append_ne_manifest _ _ hmem

/-- No writer call of an item task adds an entry named
`"manifest.json"`. -/
theorem processItem_add_ne (env : ItemEnv) (it : ZipItem) :
    ∀ e ∈ (processItem env it).1, e ≠ ZipEvent.add "manifest.json" := by
  intro e he
  unfold processItem at he
  split at he
  · simp at he
  next meta hmeta =>
    split at he
    · simp at he
    next u hu =>
      split at he
      · simp at he
      next res hres =>
        split at he
        next hbody =>
          simp only [List.mem_singleton] at he
          subst he
          intro hc
          exact entryFileName_ne_manifest it res.contentType (some u)
            (ZipEvent.add.inj hc)
        next stream hbody =>
          split at he
          next msg herr =>
            simp only [List.mem_cons, List.mem_map] at he
            rcases he with rfl | ⟨n, _, rfl⟩
            · intro hc
              exact entryFileName_ne_manifest it res.contentType (some u)
                (ZipEvent.add.inj hc)
            · simp
          next herr =>
            simp only [List.cons_append, List.mem_cons, List.mem_append,
              List.mem_map, List.mem_singleton, List.not_mem_nil, or_false] at he
            rcases he with rfl | ⟨n, _, rfl⟩ | rfl
            · intro hc
              exact entryFileName_ne_manifest it res.contentType (some u)
                (ZipEvent.add.inj hc)
            · simp
            · simp

/-- Each settled task contributes exactly one element to exactly one of
the manifest's two arrays. -/
theorem length_inl_add_inr
    (l : List (List ZipEvent × (ManifestError ⊕ ManifestEntry))) :
    (l.filterMap fun r =>
      match r.2 with | .inr e => some e | .inl _ => none).length +
    (l.filterMap fun r =>
      match r.2 with | .inl e => some e | .inr _ => none).length = l.length := by
  induction l with
  | nil => rfl
  | cons r l ih =>
    rcases r with ⟨ev, res⟩
    cases res with
    | inl e =>
      simp only [List.filterMap_cons, List.length_cons]
      omega
    | inr e =>
      simp only [List.filterMap_cons, List.length_cons]
      omega

/-- When the settle order only mentions valid indices, every task
settles: one result per index. -/
theorem settled_length (env : Nat → ItemEnv) (ord : List Nat)
    (its : List ZipItem) (h : ∀ i ∈ ord, i < its.length) :
    (settledResults env ord its).length = ord.length := by
  unfold settledResults
  induction ord with
  | nil => rfl
  | cons i ord ih =>
    have hi : i < (itemResults env its).length := by
      unfold itemResults
      rw [List.length_map, List.enum_length]
      exact h i (List.mem_cons_self i ord)
    rw [List.filterMap_cons, List.get?_eq_get hi]
    simp only [List.length_cons]
    rw [ih (fun j hj => h j (List.mem_cons_of_mem _ hj))]


/-- C1: for every non-empty input list the orchestrator responds with an
archive whose writer calls are the item tasks' calls (in settle order)
followed by exactly one `manifest.json` entry — added only once all item
tasks have settled — and the closing `zip.end`; the manifest satisfies
`entries.length + errors.length = items.length` because each task
appends to exactly one of the two arrays; in particular, when every
item fails, `errors.length = items.length`, `entries = []`, and the
archive is still finalized. -/
theorem post_archive_manifest_invariant (env : Nat → ItemEnv) (now : String)
    (ord : List Nat) (its : List ZipItem) (hne : its ≠ [])
    (hperm : ord.Perm (List.range its.length)) :
    runPOST env now ord (some its) =
      .archive (itemEventsOf env ord its ++
        [.add "manifest.json",
         .push "manifest.json"
           (manifestText (manifestOf env now ord its)).utf8ByteSize true,
         .endArchive])
        (manifestOf env now ord its) ∧
    (∀ e ∈ itemEventsOf env ord its, e ≠ ZipEvent.add "manifest.json") ∧
    (manifestOf env now ord its).entries.length +
      (manifestOf env now ord its).errors.length = its.length ∧
    ((∀ r ∈ settledResults env ord its, r.2.isLeft) →
      (manifestOf env now ord its).entries = [] ∧
      (manifestOf env now ord its).errors.length = its.length) := by
  have hlen : its.length ≠ 0 := fun h0 => hne (List.length_eq_zero.mp h0)
  have hbound : ∀ i ∈ ord, i < its.length := fun i hi =>
    List.mem_range.mp (hperm.mem_iff.mp hi)
  have hcount : (manifestOf env now ord its).entries.length +
      (manifestOf env now ord its).errors.length = its.length := by
    have h1 := length_inl_add_inr (settledResults env ord its)
    have h2 := settled_length env ord its hbound
    have h3 : ord.length = its.length := by
      rw [hperm.length_eq, List.length_range]
    show ((settledResults env ord its).filterMap fun r =>
        match r.2 with | .inr e => some e | .inl _ => none).length +
      ((settledResults env ord its).filterMap fun r =>
        match r.2 with | .inl e => some e | .inr _ => none).length = its.length
    omega
  refine ⟨?_, ?_, hcount, ?_⟩
  · unfold runPOST
    dsimp only
    rw [if_neg hlen]
  · intro e he
    unfold itemEventsOf at he
    rw [List.mem_flatten] at he
    obtain ⟨L, hL, heL⟩ := he
    rw [List.mem_map] at hL
    obtain ⟨r, hr, rfl⟩ := hL
    have hr2 : r ∈ itemResults env its := by
      unfold settledResults at hr
      rw [List.mem_filterMap] at hr
      obtain ⟨i, _, hget⟩ := hr
      exact List.get?_mem hget
    unfold itemResults at hr2
    rw [List.mem_map] at hr2
    obtain ⟨p, _, rfl⟩ := hr2
    exact processItem_add_ne _ _ e heL
  · intro hall
    have hentries : (manifestOf env now ord its).entries = [] := by
      show ((settledResults env ord its).filterMap fun r =>
        match r.2 with | .inr e => some e | .inl _ => none) = []
      rw [List.filterMap_eq_nil_iff]
      intro r hr
      have hl := hall r hr
      cases hres : r.2 with
      | inl e => rfl
      | inr e =>
        rw [hres] at hl
        simp at hl
    refine ⟨hentries, ?_⟩
    have h0 : (manifestOf env now ord its).entries.length = 0 := by
      rw [hentries]
      rfl
    omega

/-- Closed instance of `post_archive_manifest_invariant` at the
one-item scenario input. -/
theorem post_archive_manifest_invariant_witness :
    runPOST envScenario "T0" [0] (some [itemScenario]) =
      .archive (itemEventsOf envScenario [0] [itemScenario] ++
        [.add "manifest.json",
         .push "manifest.json"
           (manifestText (manifestOf envScenario "T0" [0] [itemScenario])).utf8ByteSize
           true,
         .endArchive])
        (manifestOf envScenario "T0" [0] [itemScenario]) ∧
    (∀ e ∈ itemEventsOf envScenario [0] [itemScenario],
      e ≠ ZipEvent.add "manifest.json") ∧
    (manifestOf envScenario "T0" [0] [itemScenario]).entries.length +
      (manifestOf envScenario "T0" [0] [itemScenario]).errors.length =
        [itemScenario].length ∧
    ((∀ r ∈ settledResults envScenario [0] [itemScenario], r.2.isLeft) →
      (manifestOf envScenario "T0" [0] [itemScenario]).entries = [] ∧
      (manifestOf envScenario "T0" [0] [itemScenario]).errors.length =
        [itemScenario].length) :=
  post_archive_manifest_invariant envScenario "T0" [0] [itemScenario]
    (by decide) (by decide)


/-- C3 counterexample: an item whose metadata fetch succeeds on the very
first attempt with JSON lacking `download_url` is recorded as FAILED
with `"no download_url in metadata"` after a single metadata attempt —
the missing-field check sits outside `retry`, so the configured three
attempts are not exhausted (indeed every attempt of this oracle would
succeed). -/
theorem no_download_url_retry_cex :
    processItem envNoUrl itemScenario =
      ([], .inl ⟨1, 10, "no download_url in metadata"⟩) ∧
    metaAttemptsUsed envNoUrl = 1 ∧
    ¬ metaAttemptsUsed envNoUrl = 3 ∧
    (∀ j, j < 3 → (envNoUrl.metaAttempt j).isOk = true) := by
  decide

/-- C3 amended: an item whose retry-wrapped metadata resolution returns
(on its first successful attempt, say attempt `k`) JSON without a
`download_url` transitions to FAILED immediately — after `k + 1`
metadata attempts, not after exhausting the retry budget — and is
recorded in `manifest.errors` as `{callId, recId, error: "no
download_url in metadata"}`; other items' results are their own tasks'
results, and the archive is still produced and finalized with no entry
added for the failed item. -/
theorem no_download_url_fails_immediately (env : ItemEnv) (it : ZipItem)
    (meta : MetaJson) (k : Nat) (es : Nat → String)
    (hk : k < 3) (hfail : ∀ j, j < k → env.metaAttempt j = .error (es j))
    (hok : env.metaAttempt k = .ok meta) (hurl : downloadUrlOf meta = none) :
    processItem env it =
      ([], .inl ⟨it.callId, it.recId, "no download_url in metadata"⟩) ∧
    metaAttemptsUsed env = k + 1 ∧
    (∀ env2 it2,
      settledResults (fun j => if j = 0 then env else env2) [0, 1] [it, it2] =
        [processItem env it, processItem env2 it2]) ∧
    (∀ now, runPOST (fun _ => env) now [0] (some [it]) =
      .archive
        [.add "manifest.json",
         .push "manifest.json" (manifestText ⟨now, 1, [],
           [⟨it.callId, it.recId, "no download_url in metadata"⟩]⟩).utf8ByteSize
           true,
         .endArchive]
        ⟨now, 1, [], [⟨it.callId, it.recId, "no download_url in metadata"⟩]⟩) := by
  have hret := retryRun_ok env.metaAttempt meta es k 3 hk hfail hok
  have hproc : processItem env it =
      ([], .inl ⟨it.callId, it.recId, "no download_url in metadata"⟩) := by
    unfold processItem
    rw [hret]
    dsimp only
    rw [hurl]
  have hused : metaAttemptsUsed env = k + 1 := by
    unfold metaAttemptsUsed
    rw [hret]
  refine ⟨hproc, hused, fun env2 it2 => rfl, ?_⟩
  intro now
  have hev : itemEventsOf (fun _ => env) [0] [it] = [] := by
    unfold itemEventsOf settledResults itemResults
    simp [hproc]
  have hman : manifestOf (fun _ => env) now [0] [it] =
      ⟨now, 1, [], [⟨it.callId, it.recId, "no download_url in metadata"⟩]⟩ := by
    unfold manifestOf settledResults itemResults
    simp [hproc]
  unfold runPOST
  dsimp only
  rw [if_neg (by simp : ¬ ([it].length = 0)), hman, hev]
  rfl

/-- Closed instance of `no_download_url_fails_immediately`: the metadata
fetch fails once with status 500, then returns JSON without
`download_url` on the second attempt (`k = 1`). -/
theorem no_download_url_fails_immediately_witness :
    processItem envNoUrlRetry itemScenario =
      ([], .inl ⟨1, 10, "no download_url in metadata"⟩) ∧
    metaAttemptsUsed envNoUrlRetry = 2 ∧
    (∀ env2 it2,
      settledResults (fun j => if j = 0 then envNoUrlRetry else env2) [0, 1]
          [itemScenario, it2] =
        [processItem envNoUrlRetry itemScenario, processItem env2 it2]) ∧
    (∀ now, runPOST (fun _ => envNoUrlRetry) now [0] (some [itemScenario]) =
      .archive
        [.add "manifest.json",
         .push "manifest.json" (manifestText ⟨now, 1, [],
           [⟨1, 10, "no download_url in metadata"⟩]⟩).utf8ByteSize true,
         .endArchive]
        ⟨now, 1, [], [⟨1, 10, "no download_url in metadata"⟩]⟩) :=
  no_download_url_fails_immediately envNoUrlRetry itemScenario ⟨some ⟨none⟩⟩ 1
    (fun _ => "metadata fetch 500") (by decide) (by decide) (by decide) (by decide)

/-- C4 counterexample: at the spec scenario input the produced archive
entry and manifest record carry the file name
`2024-01-05_call-1_rec-10_+123_A_Name.mp3` — the sanitizer keeps `+` —
not the claimed `2024-01-05_call-1_rec-10_123_A_Name.mp3`. -/
theorem scenario_filename_cex :
    responseEntryFiles (runPOST envScenario "T0" [0] (some [itemScenario])) =
      ["2024-01-05_call-1_rec-10_+123_A_Name.mp3"] ∧
    "2024-01-05_call-1_rec-10_123_A_Name.mp3" ∉
      responseEntryFiles (runPOST envScenario "T0" [0] (some [itemScenario])) ∧
    ZipEvent.add "2024-01-05_call-1_rec-10_123_A_Name.mp3" ∉
      responseEvents (runPOST envScenario "T0" [0] (some [itemScenario])) := by
  decide

/-- C4 amended: at the scenario input (`audio/mpeg`, 1000-byte payload)
the archive holds exactly one recording entry, named
`2024-01-05_call-1_rec-10_+123_A_Name.mp3` (the `+` of the phone is kept
by `safeSlug`), sealed after 1000 bytes, plus the manifest entry; the
manifest is `{generated_at, count: 1, entries: [{callId: 1, recId: 10,
file: <that name>, bytes: 1000}], errors: []}`. -/
theorem scenario_filename_amended :
    runPOST envScenario "T0" [0] (some [itemScenario]) =
      .archive
        [.add "2024-01-05_call-1_rec-10_+123_A_Name.mp3",
         .push "2024-01-05_call-1_rec-10_+123_A_Name.mp3" 1000 false,
         .push "2024-01-05_call-1_rec-10_+123_A_Name.mp3" 0 true,
         .add "manifest.json",
         .push "manifest.json" 204 true,
         .endArchive]
        ⟨"T0", 1, [⟨1, 10, "2024-01-05_call-1_rec-10_+123_A_Name.mp3", 1000⟩],
         []⟩ := by
  decide

/-- C5 counterexample: the manifest the orchestrator serializes has keys
`generated_at`/`count`, its entries elements have keys
`callId`/`recId`/`file`/`bytes` and its errors elements
`callId`/`recId`/`error` — not `total_count`, `fileName`/`byteCount` or
`message`. -/
theorem manifest_keys_cex :
    responseManifestKeys (runPOST envScenario "T0" [0] (some [itemScenario])) =
      ["generated_at", "count", "entries", "errors"] ∧
    "total_count" ∉
      responseManifestKeys (runPOST envScenario "T0" [0] (some [itemScenario])) ∧
    responseEntriesKeys (runPOST envScenario "T0" [0] (some [itemScenario])) =
      [["callId", "recId", "file", "bytes"]] ∧
    ["callId", "recId", "fileName", "byteCount"] ∉
      responseEntriesKeys (runPOST envScenario "T0" [0] (some [itemScenario])) ∧
    responseErrorsKeys
        (runPOST (fun _ => envNoUrl) "T0" [0] (some [itemScenario])) =
      [["callId", "recId", "error"]] ∧
    ["callId", "recId", "message"] ∉
      responseErrorsKeys
        (runPOST (fun _ => envNoUrl) "T0" [0] (some [itemScenario])) := by
  decide

/-- C5 amended: the manifest record built by the orchestrator serializes
with type `{generated_at, count, entries: [...], errors: [...]}`, each
entries element `{callId, recId, file, bytes}` for a completed item and
each errors element `{callId, recId, error}` for a failed item —
`entries`/`errors` are exactly the completed/failed partitions of the
settled task results. -/
theorem manifest_keys_amended (m : Manifest) (e : ManifestEntry)
    (er : ManifestError) :
    (manifestJson m).topKeys = ["generated_at", "count", "entries", "errors"] ∧
    (entryJson e).topKeys = ["callId", "recId", "file", "bytes"] ∧
    (errorJson er).topKeys = ["callId", "recId", "error"] ∧
    (∀ env now ord its,
      (manifestOf env now ord its).entries =
        ((settledResults env ord its).filterMap fun r =>
          match r.2 with | .inr x => some x | .inl _ => none) ∧
      (manifestOf env now ord its).errors =
        ((settledResults env ord its).filterMap fun r =>
          match r.2 with | .inl x => some x | .inr _ => none)) :=
  ⟨rfl, rfl, rfl, fun _ _ _ _ => ⟨rfl, rfl⟩⟩

/-- C7: when the audio fetch succeeds (after `k` failed fetch attempts)
but the byte-streaming phase fails — a missing readable body, or a
reader rejection after some chunks — the fetch is never re-attempted
(`k + 1` audio attempts in total), the task records exactly one error
with the captured message, the chunks already pushed are abandoned in
place and the entry is never sealed: the task makes no `final = true`
push at all. -/
theorem stream_failure_not_retried (env : ItemEnv) (it : ZipItem)
    (meta : MetaJson) (u : String) (res : AudioRes) (k : Nat) (es : Nat → String)
    (hmeta : (retryRun env.metaAttempt 3).result = .ok meta)
    (hurl : downloadUrlOf meta = some u)
    (hfail : ∀ j, j < k → env.audioAttempt j = .error (es j))
    (hok : env.audioAttempt k = .ok res) (hk : k < 3) :
    audioAttemptsUsed env = k + 1 ∧
    (res.body = none → processItem env it =
      ([.add (entryFileName it (guessExt res.contentType (some u)))],
       .inl ⟨it.callId, it.recId, "no readable body"⟩)) ∧
    (∀ chunks msg, res.body = some ⟨chunks, some msg⟩ →
      processItem env it =
        (.add (entryFileName it (guessExt res.contentType (some u))) ::
          chunks.map (fun n =>
            ZipEvent.push (entryFileName it (guessExt res.contentType (some u)))
              n false),
         .inl ⟨it.callId, it.recId, msg⟩) ∧
      (∀ nm b, ZipEvent.push nm b true ∉ (processItem env it).1)) := by
  have hret := retryRun_ok env.audioAttempt res es k 3 hk hfail hok
  have hused : audioAttemptsUsed env = k + 1 := by
    unfold audioAttemptsUsed
    rw [hret]
  refine ⟨hused, ?_, ?_⟩
  · intro hbody
    unfold processItem
    rw [hmeta]
    dsimp only
    rw [hurl]
    dsimp only
    rw [hret]
    dsimp only
    rw [hbody]
  · intro chunks msg hbody
    have heq : processItem env it =
        (.add (entryFileName it (guessExt res.contentType (some u))) ::
          chunks.map (fun n =>
            ZipEvent.push (entryFileName it (guessExt res.contentType (some u)))
              n false),
         .inl ⟨it.callId, it.recId, msg⟩) := by
      unfold processItem
      rw [hmeta]
      dsimp only
      rw [hurl]
      dsimp only
      rw [hret]
      dsimp only
      rw [hbody]
    refine ⟨heq, ?_⟩
    intro nm b hmem
    rw [heq] at hmem
    simp only [List.mem_cons, List.mem_map] at hmem
    rcases hmem with h | ⟨n, _, h⟩
    · exact ZipEvent.noConfusion h
    · simp at h

/-- Closed instance of `stream_failure_not_retried`: the audio fetch
succeeds on the first attempt, the stream delivers one 5-byte chunk and
then the reader rejects with `"read failed"`. -/
theorem stream_failure_not_retried_witness :
    audioAttemptsUsed envStreamFail = 0 + 1 ∧
    ((⟨some "audio/mpeg", some ⟨[5], some "read failed"⟩⟩ : AudioRes).body = none →
      processItem envStreamFail itemScenario =
      ([.add (entryFileName itemScenario
          (guessExt (some "audio/mpeg") (some "https://cdn/a")))],
       .inl ⟨1, 10, "no readable body"⟩)) ∧
    (∀ chunks msg,
      (⟨some "audio/mpeg", some ⟨[5], some "read failed"⟩⟩ : AudioRes).body =
        some ⟨chunks, some msg⟩ →
      processItem envStreamFail itemScenario =
        (.add (entryFileName itemScenario
            (guessExt (some "audio/mpeg") (some "https://cdn/a"))) ::
          chunks.map (fun n =>
            ZipEvent.push (entryFileName itemScenario
              (guessExt (some "audio/mpeg") (some "https://cdn/a"))) n false),
         .inl ⟨1, 10, msg⟩) ∧
      (∀ nm b,
        ZipEvent.push nm b true ∉ (processItem envStreamFail itemScenario).1)) :=
  stream_failure_not_retried envStreamFail itemScenario
    ⟨some ⟨some "https://cdn/a"⟩⟩ "https://cdn/a"
    ⟨some "audio/mpeg", some ⟨[5], some "read failed"⟩⟩ 0 (fun _ => "")
    (by decide) (by decide) (by decide) (by decide) (by decide)

/-- C8: a request body whose `items` field is absent or not an array
(`none`) or an empty array yields the client error `400 "No items
supplied"` immediately; the response is independent of the network
oracles, the timestamp and the schedule — no network call is made and no
archive or manifest is created. -/
theorem post_no_items (env env2 : Nat → ItemEnv) (now now2 : String)
    (ord ord2 : List Nat) :
    runPOST env now ord none = .httpError 400 "No items supplied" ∧
    runPOST env now ord (some []) = .httpError 400 "No items supplied" ∧
    runPOST env now ord none = runPOST env2 now2 ord2 none ∧
    runPOST env now ord (some []) = runPOST env2 now2 ord2 (some []) :=
  ⟨rfl, rfl, rfl, rfl⟩

end QmsZip
